import Mathlib

/-!
Verification of the kanban data layer (boards / columns / cards over SQLite,
plus a backup/retention utility).

The SQL tables are embedded as Lean lists of row structures; each Tauri
command (src-tauri/src/commands/) becomes a pure function from the database
state (plus the values the command reads from the environment: generated
UUIDs and the current wall-clock time) to the updated state and the command's
return value.  Floating-point `order` keys (`f64` in the source, SQL `REAL`)
are embedded as rationals: every operation the code performs on them
(comparison, `MAX`, `+ 1.0`) is exact on the values the claims speak about.
-/

set_option maxRecDepth 10000

namespace Kanban

/-- A row of the `boards` table (migrations.rs, `001_initial_schema`). -/
structure BoardRow where
  id : String
  name : String
  lastOpenedAt : Option String
  createdAt : String
  updatedAt : String
deriving DecidableEq

/-- A row of the `columns` table. -/
structure ColumnRow where
  id : String
  boardId : String
  name : String
  order : ℚ
  archived : Bool
  createdAt : String
  updatedAt : String
deriving DecidableEq

/-- A row of the `cards` table. -/
structure CardRow where
  id : String
  columnId : String
  title : String
  description : Option String
  order : ℚ
  archived : Bool
  createdAt : String
  updatedAt : String
deriving DecidableEq

/-- The whole store: the three tables. -/
structure DB where
  boards : List BoardRow
  columns : List ColumnRow
  cards : List CardRow
deriving DecidableEq

/-- `ORDER BY "order" ASC` comparison for columns. -/
def columnLE (a b : ColumnRow) : Prop := a.order ≤ b.order

/-- `ORDER BY "order" ASC` comparison for cards. -/
def cardLE (a b : CardRow) : Prop := a.order ≤ b.order

instance : DecidableRel columnLE :=
  fun a b => inferInstanceAs (Decidable (a.order ≤ b.order))

instance : DecidableRel cardLE :=
  fun a b => inferInstanceAs (Decidable (a.order ≤ b.order))

instance : IsTotal ColumnRow columnLE := ⟨fun a b => le_total a.order b.order⟩

instance : IsTotal CardRow cardLE := ⟨fun a b => le_total a.order b.order⟩

instance : IsTrans ColumnRow columnLE := ⟨fun _ _ _ h h' => le_trans h h'⟩

instance : IsTrans CardRow cardLE := ⟨fun _ _ _ h h' => le_trans h h'⟩

/-- columns.rs `get_columns_for_board`:
`SELECT ... FROM columns WHERE board_id = ? AND archived = 0 ORDER BY "order" ASC`. -/
def get_columns_for_board (db : DB) (boardId : String) : List ColumnRow :=
  List.insertionSort columnLE
    (db.columns.filter (fun c => c.boardId == boardId && !c.archived))

/-- cards.rs `get_cards_for_column`:
`SELECT ... FROM cards WHERE column_id = ? AND archived = 0 ORDER BY "order" ASC`. -/
def get_cards_for_column (db : DB) (columnId : String) : List CardRow :=
  List.insertionSort cardLE
    (db.cards.filter (fun c => c.columnId == columnId && !c.archived))

/-- cards.rs `get_cards_for_board`:
`SELECT ... FROM cards c INNER JOIN columns col ON c.column_id = col.id
WHERE col.board_id = ? AND c.archived = 0 ORDER BY c."order" ASC`.
The inner join is kept as such: one output row per (card, matching column) pair. -/
def get_cards_for_board (db : DB) (boardId : String) : List CardRow :=
  List.insertionSort cardLE
    (db.cards.flatMap (fun c =>
      (db.columns.filter
          (fun col => c.columnId == col.id && col.boardId == boardId && !c.archived)).map
        (fun _ => c)))

/-- SQL `MAX(...)` over a column of values: `NULL` (here `none`) on an empty
result set, otherwise the maximum. -/
def sqlMax : List ℚ → Option ℚ
  | [] => none
  | x :: xs => some (xs.foldl max x)

/-- The `order` values of all columns of a board
(`SELECT MAX("order") FROM columns WHERE board_id = ?` scope: archived
columns included). -/
def boardOrders (db : DB) (boardId : String) : List ℚ :=
  (db.columns.filter (fun c => c.boardId == boardId)).map ColumnRow.order

/-- The `order` values of all cards of a column
(`SELECT MAX("order") FROM cards WHERE column_id = ?` scope). -/
def columnCardOrders (db : DB) (columnId : String) : List ℚ :=
  (db.cards.filter (fun c => c.columnId == columnId)).map CardRow.order

/-- columns.rs `CreateColumnInput`. -/
structure CreateColumnInput where
  boardId : String
  name : String
  order : Option ℚ

/-- columns.rs `create_column`: the auto-assigned order is
`MAX("order") over the board`, with NULL treated as `0.0`, plus `1.0`;
the new row is inserted with `archived = false` and both timestamps `now`. -/
def create_column (db : DB) (input : CreateColumnInput) (id now : String) :
    ColumnRow × DB :=
  let order : ℚ :=
    match input.order with
    | some o => o
    | none => (sqlMax (boardOrders db input.boardId)).getD 0 + 1
  let col : ColumnRow :=
    ⟨id, input.boardId, input.name, order, false, now, now⟩
  (col, { db with columns := db.columns ++ [col] })

/-- cards.rs `CreateCardInput`. -/
structure CreateCardInput where
  columnId : String
  title : String
  description : Option String
  order : Option ℚ

/-- cards.rs `create_card`: mirror of `create_column` at column scope. -/
def create_card (db : DB) (input : CreateCardInput) (id now : String) :
    CardRow × DB :=
  let order : ℚ :=
    match input.order with
    | some o => o
    | none => (sqlMax (columnCardOrders db input.columnId)).getD 0 + 1
  let card : CardRow :=
    ⟨id, input.columnId, input.title, input.description, order, false, now, now⟩
  (card, { db with cards := db.cards ++ [card] })

/-- boards.rs `UpdateBoardInput`. -/
structure UpdateBoardInput where
  name : Option String

/-- boards.rs `update_board`: the `UPDATE` (which also refreshes
`updated_at`) is executed only inside `if let Some(name) = &input.name`;
with an empty patch no statement runs at all.  The returned value is the
row re-fetched by id (`query_row`, failing — `none` — when absent). -/
def update_board (db : DB) (id : String) (input : UpdateBoardInput)
    (now : String) : Option BoardRow × DB :=
  let boards :=
    match input.name with
    | some n =>
        db.boards.map (fun b =>
          if b.id == id then { b with name := n, updatedAt := now } else b)
    | none => db.boards
  ((boards.find? (fun b => b.id == id)), { db with boards := boards })

/-- columns.rs `UpdateColumnInput`. -/
structure UpdateColumnInput where
  name : Option String
  order : Option ℚ
  archived : Option Bool

/-- The row-level effect of columns.rs `update_column`'s dynamically built
`UPDATE columns SET updated_at = ?[, name = ?][, "order" = ?][, archived = ?]
WHERE id = ?`: `updated_at` is always set, the other fields only when the
patch supplies them. -/
def applyColumnPatch (input : UpdateColumnInput) (now : String)
    (c : ColumnRow) : ColumnRow :=
  { c with
    updatedAt := now
    name := input.name.getD c.name
    order := input.order.getD c.order
    archived := input.archived.getD c.archived }

/-- columns.rs `update_column`: patch the matching row, then re-fetch it. -/
def update_column (db : DB) (id : String) (input : UpdateColumnInput)
    (now : String) : Option ColumnRow × DB :=
  let columns :=
    db.columns.map (fun c =>
      if c.id == id then applyColumnPatch input now c else c)
  ((columns.find? (fun c => c.id == id)), { db with columns := columns })

/-- cards.rs `UpdateCardInput`. -/
structure UpdateCardInput where
  title : Option String
  description : Option String
  order : Option ℚ
  archived : Option Bool

/-- Row-level effect of cards.rs `update_card`'s dynamic `UPDATE`: note that
`description` can only be set to a non-NULL value through this patch. -/
def applyCardPatch (input : UpdateCardInput) (now : String)
    (c : CardRow) : CardRow :=
  { c with
    updatedAt := now
    title := input.title.getD c.title
    description :=
      match input.description with
      | some d => some d
      | none => c.description
    order := input.order.getD c.order
    archived := input.archived.getD c.archived }

/-- cards.rs `update_card`: patch the matching row, then re-fetch it. -/
def update_card (db : DB) (id : String) (input : UpdateCardInput)
    (now : String) : Option CardRow × DB :=
  let cards :=
    db.cards.map (fun c =>
      if c.id == id then applyCardPatch input now c else c)
  ((cards.find? (fun c => c.id == id)), { db with cards := cards })

/-- boards.rs `delete_board` (`DELETE FROM boards WHERE id = ?`) together with
the schema's referential actions (migrations.rs): `columns.board_id` has
`ON DELETE CASCADE`, and `cards.column_id` cascades from the deleted
columns. -/
def delete_board (db : DB) (id : String) : DB :=
  let removedColumns := db.columns.filter (fun c => c.boardId == id)
  { boards := db.boards.filter (fun b => !(b.id == id))
    columns := db.columns.filter (fun c => !(c.boardId == id))
    cards :=
      db.cards.filter (fun k =>
        !(removedColumns.any (fun c => c.id == k.columnId))) }

/-- cards.rs `move_card`:
`UPDATE cards SET column_id = ?, "order" = ?, updated_at = ? WHERE id = ?`,
then re-fetch the row by id. -/
def move_card (db : DB) (id columnId : String) (order : ℚ) (now : String) :
    Option CardRow × DB :=
  let cards :=
    db.cards.map (fun c =>
      if c.id == id then
        { c with columnId := columnId, order := order, updatedAt := now }
      else c)
  ((cards.find? (fun c => c.id == id)), { db with cards := cards })

/-- A by-id card lookup (the `getCard` of the spec's interface table;
cards.rs re-fetches rows exactly like this after each mutation). -/
def get_card (db : DB) (id : String) : Option CardRow :=
  db.cards.find? (fun c => c.id == id)

end Kanban

namespace Kanban

/-- Claim C4: the two active listings (`get_columns_for_board`,
`get_cards_for_column`) contain no archived entry and are sorted ascending by
the `order` key, for every database state and every board/column id. -/
theorem c4_active_listings (db : DB) (boardId columnId : String) :
    (∀ c ∈ get_columns_for_board db boardId, c.archived = false)
    ∧ List.Sorted columnLE (get_columns_for_board db boardId)
    ∧ (∀ k ∈ get_cards_for_column db columnId, k.archived = false)
    ∧ List.Sorted cardLE (get_cards_for_column db columnId) := by
  refine ⟨?_, ?_, ?_, ?_⟩
  · intro c hc
    rw [get_columns_for_board, List.mem_insertionSort, List.mem_filter] at hc
    have := hc.2
    simp only [Bool.and_eq_true, beq_iff_eq, Bool.not_eq_true'] at this
    exact this.2
  · exact List.sorted_insertionSort columnLE _
  · intro k hk
    rw [get_cards_for_column, List.mem_insertionSort, List.mem_filter] at hk
    have := hk.2
    simp only [Bool.and_eq_true, beq_iff_eq, Bool.not_eq_true'] at this
    exact this.2
  · exact List.sorted_insertionSort cardLE _

/-- Claim C2: `delete_board` removes the board row, every column of that
board, and every card owned by one of those columns; every board, column and
card not belonging to the deleted board survives. -/
theorem c2_delete_board_cascade (db : DB) (bid : String) :
    (∀ b : BoardRow, b ∈ (delete_board db bid).boards ↔
        b ∈ db.boards ∧ b.id ≠ bid)
    ∧ (∀ c : ColumnRow, c ∈ (delete_board db bid).columns ↔
        c ∈ db.columns ∧ c.boardId ≠ bid)
    ∧ (∀ k : CardRow, k ∈ (delete_board db bid).cards ↔
        k ∈ db.cards ∧
          ∀ col ∈ db.columns, col.id = k.columnId → col.boardId ≠ bid) := by
  refine ⟨?_, ?_, ?_⟩
  · intro b
    simp [delete_board, List.mem_filter, Bool.not_eq_true', beq_eq_false_iff_ne]
  · intro c
    simp [delete_board, List.mem_filter, Bool.not_eq_true', beq_eq_false_iff_ne]
  · intro k
    simp only [delete_board, List.mem_filter, Bool.not_eq_true',
      List.any_eq_false, beq_eq_false_iff_ne, beq_iff_eq, ne_eq,
      and_congr_right_iff]
    intro _
    constructor
    · intro h col hcol hid hbid
      exact h col ⟨hcol, hbid⟩ hid
    · intro h col hcol
      exact fun hid => h col hcol.1 hid hcol.2

/-- Claim C7: `get_cards_for_board` returns exactly the unarchived cards whose
owning column belongs to the board — with no condition on the owning column's
own `archived` flag — sorted ascending by the card's order. -/
theorem c7_board_card_listing (db : DB) (bid : String) :
    (∀ k : CardRow, k ∈ get_cards_for_board db bid ↔
        k ∈ db.cards ∧ k.archived = false
          ∧ ∃ col ∈ db.columns, k.columnId = col.id ∧ col.boardId = bid)
    ∧ List.Sorted cardLE (get_cards_for_board db bid) := by
  constructor
  · intro k
    rw [get_cards_for_board, List.mem_insertionSort, List.mem_flatMap]
    constructor
    · rintro ⟨c, hc, hk⟩
      rcases List.mem_map.mp hk with ⟨col, hcol, rfl⟩
      have hcol' := List.mem_filter.mp hcol
      have hconj := hcol'.2
      simp only [Bool.and_eq_true, beq_iff_eq, Bool.not_eq_true'] at hconj
      exact ⟨hc, hconj.2, col, hcol'.1, hconj.1.1, hconj.1.2⟩
    · rintro ⟨hk, harch, col, hcol, hid, hbid⟩
      refine ⟨k, hk, List.mem_map.mpr ⟨col, List.mem_filter.mpr ⟨hcol, ?_⟩, rfl⟩⟩
      simp [hid, hbid, harch]
  · exact List.sorted_insertionSort cardLE _

/-- The order auto-assigned to the `i`-th (0-based) creation in a fresh
scope: `i + 1`. -/
def autoOrder (i : ℕ) : ℚ := (i : ℚ) + 1

/-- `MAX` over a list extended on the right. -/
theorem sqlMax_append_singleton (l : List ℚ) (a : ℚ) :
    sqlMax (l ++ [a]) =
      some (match sqlMax l with | none => a | some m => max m a) := by
  cases l with
  | nil => rfl
  | cons x xs => simp [sqlMax, List.foldl_append]

/-- `MAX` of the orders `1, 2, …, k`. -/
theorem sqlMax_range (k : ℕ) :
    sqlMax ((List.range k).map autoOrder) =
      if k = 0 then none else some (k : ℚ) := by
  induction k with
  | zero => rfl
  | succ n ih =>
    rw [List.range_succ, List.map_append, List.map_singleton,
      sqlMax_append_singleton, ih]
    cases n with
    | zero => simp [autoOrder]
    | succ m =>
      simp only [Nat.succ_ne_zero, if_neg, if_false]
      rw [max_eq_right (by simp only [autoOrder]; push_cast; linarith)]
      simp only [autoOrder, Option.some.injEq]
      push_cast
      ring

/-- Creating a column with no explicit order appends
`MAX(existing orders) + 1` (with `NULL ↦ 0`) to the board's order list. -/
theorem boardOrders_create_auto (db : DB) (bid nm id now : String) :
    boardOrders (create_column db ⟨bid, nm, none⟩ id now).2 bid =
      boardOrders db bid ++ [(sqlMax (boardOrders db bid)).getD 0 + 1] := by
  simp [create_column, boardOrders, List.filter_append]

/-- A sequence of `create_column` calls with no explicit order, all on the
same board; each list entry supplies the generated id, the name, and the
creation timestamp of one call. -/
def createColumnsAuto (db : DB) (bid : String) :
    List (String × String × String) → DB
  | [] => db
  | s :: rest =>
      createColumnsAuto (create_column db ⟨bid, s.2.1, none⟩ s.1 s.2.2).2 bid rest

/-- Invariant of the auto-order creation sequence: if the board's orders are
exactly `1, …, k`, after `specs.length` more creations they are exactly
`1, …, k + specs.length`. -/
theorem createColumnsAuto_orders (bid : String) :
    ∀ (specs : List (String × String × String)) (db : DB) (k : ℕ),
      boardOrders db bid = (List.range k).map autoOrder →
      boardOrders (createColumnsAuto db bid specs) bid =
        (List.range (k + specs.length)).map autoOrder := by
  intro specs
  induction specs with
  | nil => intro db k h; simpa using h
  | cons s rest ih =>
    intro db k h
    have hstep :
        boardOrders (create_column db ⟨bid, s.2.1, none⟩ s.1 s.2.2).2 bid =
          (List.range (k + 1)).map autoOrder := by
      rw [boardOrders_create_auto, h, sqlMax_range, List.range_succ,
        List.map_append, List.map_singleton]
      cases k with
      | zero => simp [autoOrder]
      | succ m =>
        simp only [Nat.succ_ne_zero, if_neg, if_false, Option.getD_some,
          autoOrder]
    have hrest := ih _ (k + 1) hstep
    simp only [createColumnsAuto, List.length_cons]
    rw [show k + (rest.length + 1) = (k + 1) + rest.length from by omega]
    exact hrest

/-- Claim C1: a `create_column` call without an explicit order receives
`MAX(order over the board's columns) + 1`, or `1` when the board has no
columns (SQL `MAX` of an empty set is `NULL`, treated as `0`); likewise
`create_card` over the target column's cards.  Consequently a sequence of
such `create_column` calls on a board with no columns produces the orders
`1, 2, …, n`: strictly increasing integers starting at 1. -/
theorem c1_auto_order :
    (∀ (db : DB) (input : CreateColumnInput) (id now : String),
        input.order = none →
        (create_column db input id now).1.order =
          match sqlMax (boardOrders db input.boardId) with
          | none => 1
          | some m => m + 1)
    ∧ (∀ (db : DB) (input : CreateCardInput) (id now : String),
        input.order = none →
        (create_card db input id now).1.order =
          match sqlMax (columnCardOrders db input.columnId) with
          | none => 1
          | some m => m + 1)
    ∧ (∀ (db : DB) (bid : String) (specs : List (String × String × String)),
        boardOrders db bid = [] →
        boardOrders (createColumnsAuto db bid specs) bid =
          (List.range specs.length).map autoOrder) := by
  refine ⟨?_, ?_, ?_⟩
  · intro db input id now h
    simp only [create_column, h]
    cases sqlMax (boardOrders db input.boardId) <;> simp
  · intro db input id now h
    simp only [create_card, h]
    cases sqlMax (columnCardOrders db input.columnId) <;> simp
  · intro db bid specs h
    have := createColumnsAuto_orders bid specs db 0 (by simpa using h)
    simpa using this

/-- Witness for C1: on an empty store, three automatic column creations on
board `b1` yield the orders `1, 2, 3`. -/
theorem c1_auto_order_witness :
    boardOrders ⟨[], [], []⟩ "b1" = []
    ∧ boardOrders
        (createColumnsAuto ⟨[], [], []⟩ "b1"
          [("c1", "To Do", "t1"), ("c2", "Doing", "t2"), ("c3", "Done", "t3")])
        "b1"
      = (List.range 3).map autoOrder :=
  ⟨rfl, c1_auto_order.2.2 ⟨[], [], []⟩ "b1"
    [("c1", "To Do", "t1"), ("c2", "Doing", "t2"), ("c3", "Done", "t3")] rfl⟩

/-- `find?` by id commutes with mapping an id-preserving row transformation
over the cards table. -/
theorem find_card_by_id_map (l : List CardRow) (id : String)
    (g : CardRow → CardRow) (hg : ∀ c, (g c).id = c.id) :
    (l.map g).find? (fun c => c.id == id) =
      (l.find? (fun c => c.id == id)).map g := by
  rw [List.find?_map]
  have hp : ((fun c : CardRow => c.id == id) ∘ g) =
      (fun c : CardRow => c.id == id) := by
    funext c
    simp [Function.comp, hg]
  rw [hp]

/-- `find?` by id commutes with mapping an id-preserving row transformation
over the columns table. -/
theorem find_column_by_id_map (l : List ColumnRow) (id : String)
    (g : ColumnRow → ColumnRow) (hg : ∀ c, (g c).id = c.id) :
    (l.map g).find? (fun c => c.id == id) =
      (l.find? (fun c => c.id == id)).map g := by
  rw [List.find?_map]
  have hp : ((fun c : ColumnRow => c.id == id) ∘ g) =
      (fun c : ColumnRow => c.id == id) := by
    funext c
    simp [Function.comp, hg]
  rw [hp]

/-- Claim C10: `update_column`/`update_card` with an empty patch (all optional
fields absent) succeeds on an existing id, and the only change anywhere is
the matching row's `updatedAt` field. -/
theorem c10_empty_patch (db : DB) (cid kid now : String)
    (hc : ∃ c ∈ db.columns, c.id = cid)
    (hk : ∃ k ∈ db.cards, k.id = kid) :
    (update_column db cid ⟨none, none, none⟩ now).1.isSome = true
    ∧ (update_column db cid ⟨none, none, none⟩ now).2.columns =
        db.columns.map (fun c =>
          if c.id == cid then { c with updatedAt := now } else c)
    ∧ (update_column db cid ⟨none, none, none⟩ now).2.boards = db.boards
    ∧ (update_column db cid ⟨none, none, none⟩ now).2.cards = db.cards
    ∧ (update_card db kid ⟨none, none, none, none⟩ now).1.isSome = true
    ∧ (update_card db kid ⟨none, none, none, none⟩ now).2.cards =
        db.cards.map (fun k =>
          if k.id == kid then { k with updatedAt := now } else k)
    ∧ (update_card db kid ⟨none, none, none, none⟩ now).2.boards = db.boards
    ∧ (update_card db kid ⟨none, none, none, none⟩ now).2.columns =
        db.columns := by
  have hgc : ∀ c : ColumnRow,
      ((if c.id == cid then applyColumnPatch ⟨none, none, none⟩ now c
        else c)).id = c.id := by
    intro c
    by_cases h : c.id == cid <;> simp [h, applyColumnPatch]
  have hgk : ∀ c : CardRow,
      ((if c.id == kid then applyCardPatch ⟨none, none, none, none⟩ now c
        else c)).id = c.id := by
    intro c
    by_cases h : c.id == kid <;> simp [h, applyCardPatch]
  have e1 : (update_column db cid ⟨none, none, none⟩ now).1 =
      (db.columns.map (fun c =>
        if c.id == cid then applyColumnPatch ⟨none, none, none⟩ now c
        else c)).find? (fun c => c.id == cid) := rfl
  have e2 : (update_card db kid ⟨none, none, none, none⟩ now).1 =
      (db.cards.map (fun c =>
        if c.id == kid then applyCardPatch ⟨none, none, none, none⟩ now c
        else c)).find? (fun c => c.id == kid) := rfl
  refine ⟨?_, ?_, rfl, rfl, ?_, ?_, rfl, rfl⟩
  · rw [e1, find_column_by_id_map _ _ _ hgc]
    obtain ⟨c, hcmem, hcid⟩ := hc
    have hsome : (db.columns.find? (fun c => c.id == cid)).isSome = true :=
      List.find?_isSome.mpr ⟨c, hcmem, by simp [hcid]⟩
    obtain ⟨a, ha⟩ := Option.isSome_iff_exists.mp hsome
    rw [ha]
    rfl
  · apply List.map_congr_left
    intro c _
    by_cases h : c.id == cid <;> simp [h, applyColumnPatch]
  · rw [e2, find_card_by_id_map _ _ _ hgk]
    obtain ⟨k, hkmem, hkid⟩ := hk
    have hsome : (db.cards.find? (fun c => c.id == kid)).isSome = true :=
      List.find?_isSome.mpr ⟨k, hkmem, by simp [hkid]⟩
    obtain ⟨a, ha⟩ := Option.isSome_iff_exists.mp hsome
    rw [ha]
    rfl
  · apply List.map_congr_left
    intro c _
    by_cases h : c.id == kid <;> simp [h, applyCardPatch]

/-- Witness for C10: a store with one column `col1` and one card `k1`; the
empty patches succeed on both. -/
theorem c10_empty_patch_witness :
    (∃ c ∈ (DB.mk [] [⟨"col1", "b1", "C", 1, false, "t0", "t0"⟩]
        [⟨"k1", "col1", "T", none, 1, false, "t0", "t0"⟩]).columns, c.id = "col1")
    ∧ (∃ k ∈ (DB.mk [] [⟨"col1", "b1", "C", 1, false, "t0", "t0"⟩]
        [⟨"k1", "col1", "T", none, 1, false, "t0", "t0"⟩]).cards, k.id = "k1")
    ∧ (update_column (DB.mk [] [⟨"col1", "b1", "C", 1, false, "t0", "t0"⟩]
        [⟨"k1", "col1", "T", none, 1, false, "t0", "t0"⟩])
        "col1" ⟨none, none, none⟩ "t9").1.isSome = true
    ∧ (update_card (DB.mk [] [⟨"col1", "b1", "C", 1, false, "t0", "t0"⟩]
        [⟨"k1", "col1", "T", none, 1, false, "t0", "t0"⟩])
        "k1" ⟨none, none, none, none⟩ "t9").1.isSome = true :=
  ⟨by decide, by decide,
    (c10_empty_patch _ "col1" "k1" "t9" (by decide) (by decide)).1,
    (c10_empty_patch _ "col1" "k1" "t9" (by decide) (by decide)).2.2.2.2.1⟩

/-- Counterexample for C6: `update_board` with an empty patch does not
refresh `updatedAt` — the code only executes its `UPDATE` statement inside
`if let Some(name) = &input.name`.  Board `b1` has `updatedAt = "t0"`; after
`update_board` with no fields at time `"t1"` the stored value is still
`"t0"`, not the new timestamp. -/
theorem c6_counterexample :
    ((update_board (DB.mk [⟨"b1", "n0", some "t0", "t0", "t0"⟩] [] [])
        "b1" ⟨none⟩ "t1").1.map BoardRow.updatedAt) = some "t0"
    ∧ "t0" ≠ "t1" :=
  ⟨rfl, by decide⟩

/-- Claim C6 (amended): an `update_board` call changes only the supplied
fields of the matching board and refreshes `updatedAt` when a field is
supplied; `id`, `createdAt`, `lastOpenedAt`, all other rows and the other
tables are untouched.  When no optional field is supplied the call changes
nothing at all — in particular `updatedAt` keeps its previous value. -/
theorem c6_update_board_fields (db : DB) (id n now : String) :
    (update_board db id ⟨some n⟩ now).2.boards =
        db.boards.map (fun b =>
          if b.id == id then { b with name := n, updatedAt := now } else b)
    ∧ (update_board db id ⟨some n⟩ now).2.columns = db.columns
    ∧ (update_board db id ⟨some n⟩ now).2.cards = db.cards
    ∧ (update_board db id ⟨none⟩ now).2 = db :=
  ⟨rfl, rfl, rfl, rfl⟩

/-- A backup file as it appears in the `backups` directory: its filename and
its size in bytes.  Only the primary `.db` snapshots are listed here; the
`-wal`/`-shm` side files never match `list_backups`' `extension == "db"`
filter and are handled best-effort (their copy/delete results are
discarded), so they are not part of the observable listing state. -/
structure BackupFile where
  filename : String
  size : ℕ
deriving DecidableEq

/-- The filesystem state the backup commands operate on: whether the primary
store file `kanban.db` exists, its size, and the `.db` entries of the
`backups` directory (in the unspecified order `read_dir` yields them). -/
structure BackupFS where
  dbExists : Bool
  dbSize : ℕ
  backups : List BackupFile
deriving DecidableEq

/-- backup.rs `list_backups`' comparator:
`backups.sort_by(|a, b| b.filename.cmp(&a.filename))`, i.e. descending by
filename. -/
def backupGE (a b : BackupFile) : Prop := b.filename ≤ a.filename

instance : DecidableRel backupGE :=
  fun a b => inferInstanceAs (Decidable (b.filename ≤ a.filename))

instance : IsTotal BackupFile backupGE := ⟨fun a b => le_total b.filename a.filename⟩

instance : IsTrans BackupFile backupGE := ⟨fun _ _ _ h h' => le_trans h' h⟩

/-- backup.rs `list_backups`: the `.db` entries of the backups directory,
sorted by filename descending. -/
def list_backups (fs : BackupFS) : List BackupFile :=
  List.insertionSort backupGE fs.backups

/-- backup.rs `cleanup_old_backups`: list the backups, return `0` if there
are at most `keepCount`, otherwise walk the remainder after the first
`keepCount` (the newest-by-name) and delete each file, counting only those
whose `fs::remove_file` succeeds (`ok` says which deletions succeed, the
best-effort part of the loop) and continuing past failures. -/
def cleanup_old_backups (fs : BackupFS) (keepCount : ℕ) (ok : String → Bool) :
    ℕ × BackupFS :=
  let backups := list_backups fs
  if backups.length ≤ keepCount then (0, fs)
  else
    let res := (backups.drop keepCount).foldl
      (fun acc b =>
        if ok b.filename then (acc.1 + 1, acc.2 ++ [b.filename]) else acc)
      (0, ([] : List String))
    (res.1,
     { fs with
        backups := fs.backups.filter (fun b => !(res.2.contains b.filename)) })

/-- The deletion loop of `cleanup_old_backups` counts the successful
deletions and accumulates their filenames, attempting every entry. -/
theorem cleanup_fold_spec (ok : String → Bool) :
    ∀ (l : List BackupFile) (n : ℕ) (s : List String),
      (l.foldl
        (fun acc b =>
          if ok b.filename then (acc.1 + 1, acc.2 ++ [b.filename]) else acc)
        (n, s)) =
      (n + l.countP (fun b => ok b.filename),
       s ++ (l.filter (fun b => ok b.filename)).map BackupFile.filename) := by
  intro l
  induction l with
  | nil =>
    intro n s
    simp
  | cons b rest ih =>
    intro n s
    by_cases h : ok b.filename
    · rw [List.foldl_cons, if_pos h, ih, List.countP_cons, List.filter_cons]
      simp only [h, if_true, List.map_cons, Prod.mk.injEq]
      refine ⟨by omega, by simp⟩
    · rw [List.foldl_cons, if_neg h, ih, List.countP_cons, List.filter_cons]
      simp only [h, if_false, Bool.false_eq_true, List.map_cons,
        Prod.mk.injEq]
      refine ⟨by omega, by simp⟩

/-- Claim C5: with `N < M` backups on disk, `cleanup_old_backups N` returns
the number of files whose deletion succeeded (attempting every candidate:
one failure does not stop the loop), and — when every deletion succeeds —
deletes exactly `M − N` files, retaining exactly the `N` backups greatest in
the descending filename order. -/
theorem c5_cleanup_retention (fs : BackupFS) (N : ℕ) (ok : String → Bool)
    (hnd : (fs.backups.map BackupFile.filename).Nodup)
    (hM : N < fs.backups.length) :
    (cleanup_old_backups fs N ok).1 =
        ((list_backups fs).drop N).countP (fun b => ok b.filename)
    ∧ ((∀ b ∈ (list_backups fs).drop N, ok b.filename = true) →
        (cleanup_old_backups fs N ok).1 = fs.backups.length - N
        ∧ ∀ b : BackupFile,
            b ∈ (cleanup_old_backups fs N ok).2.backups ↔
              b ∈ (list_backups fs).take N) := by
  have hperm : (list_backups fs).Perm fs.backups :=
    List.perm_insertionSort backupGE fs.backups
  have hlen : (list_backups fs).length = fs.backups.length := hperm.length_eq
  have hgt : ¬ ((list_backups fs).length ≤ N) := by
    rw [hlen]
    omega
  have e1 : (cleanup_old_backups fs N ok).1 =
      ((list_backups fs).drop N).countP (fun b => ok b.filename) := by
    simp only [cleanup_old_backups]
    rw [if_neg hgt, cleanup_fold_spec]
    simp
  have e2 : (cleanup_old_backups fs N ok).2.backups =
      fs.backups.filter (fun b =>
        !(((((list_backups fs).drop N).filter
              (fun x => ok x.filename)).map BackupFile.filename).contains
            b.filename)) := by
    simp only [cleanup_old_backups]
    rw [if_neg hgt, cleanup_fold_spec]
    simp
  refine ⟨e1, fun hall => ⟨?_, ?_⟩⟩
  · rw [e1, List.countP_eq_length.mpr hall, List.length_drop, hlen]
  · intro b
    have hfself : ((list_backups fs).drop N).filter (fun x => ok x.filename) =
        (list_backups fs).drop N := List.filter_eq_self.mpr hall
    rw [e2, hfself]
    have hnd2 : ((list_backups fs).map BackupFile.filename).Nodup :=
      (List.Perm.nodup_iff (hperm.map BackupFile.filename)).mpr hnd
    have hsplitmap :
        ((list_backups fs).map BackupFile.filename) =
          (((list_backups fs).take N).map BackupFile.filename) ++
            (((list_backups fs).drop N).map BackupFile.filename) := by
      rw [← List.map_append, List.take_append_drop]
    have hdisj :
        (((list_backups fs).take N).map BackupFile.filename).Disjoint
          (((list_backups fs).drop N).map BackupFile.filename) := by
      rw [hsplitmap] at hnd2
      exact (List.nodup_append.mp hnd2).2.2
    have hcont : ∀ (l : List String) (a : String),
        l.contains a = true ↔ a ∈ l := by
      intro l a
      simp [List.contains]
    rw [List.mem_filter]
    constructor
    · rintro ⟨hmem, hkeep⟩
      have hnotin :
          b.filename ∉ ((list_backups fs).drop N).map BackupFile.filename := by
        simp only [Bool.not_eq_true'] at hkeep
        intro habs
        rw [← hcont _ _] at habs
        rw [hkeep] at habs
        exact Bool.false_ne_true habs
      have : b ∈ (list_backups fs).take N ∨ b ∈ (list_backups fs).drop N := by
        have := hperm.mem_iff.mpr hmem
        rw [← List.take_append_drop N (list_backups fs),
          List.mem_append] at this
        exact this
      rcases this with h | h
      · exact h
      · exact absurd (List.mem_map.mpr ⟨b, h, rfl⟩) hnotin
    · intro htake
      have hmemall : b ∈ list_backups fs := by
        rw [← List.take_append_drop N (list_backups fs), List.mem_append]
        exact Or.inl htake
      refine ⟨hperm.mem_iff.mp hmemall, ?_⟩
      have hin : b.filename ∈ ((list_backups fs).take N).map
          BackupFile.filename := List.mem_map.mpr ⟨b, htake, rfl⟩
      have hnotin :
          b.filename ∉ ((list_backups fs).drop N).map BackupFile.filename :=
        hdisj hin
      simp only [Bool.not_eq_true']
      rw [← Bool.not_eq_true, hcont _ _]
      exact hnotin

/-- A concrete backups directory with three timestamped snapshots. -/
def fsW : BackupFS :=
  ⟨true, 5,
   [⟨"kanban_backup_20240101_000000.db", 5⟩,
    ⟨"kanban_backup_20240103_000000.db", 5⟩,
    ⟨"kanban_backup_20240102_000000.db", 5⟩]⟩

/-- Witness for C5: keep-count 1 on three backups, all deletions succeed. -/
theorem c5_cleanup_retention_witness :
    (fsW.backups.map BackupFile.filename).Nodup
    ∧ 1 < fsW.backups.length
    ∧ (cleanup_old_backups fsW 1 (fun _ => true)).1 =
        fsW.backups.length - 1 :=
  ⟨by decide, by decide,
    ((c5_cleanup_retention fsW 1 (fun _ => true) (by decide)
        (by decide)).2 (fun _ _ => rfl)).1⟩

/-- A wall-clock timestamp at the resolution of chrono's
`format("%Y%m%d_%H%M%S")`: year, month, day, hour, minute, second. -/
structure DateTime where
  y : ℕ
  mo : ℕ
  d : ℕ
  h : ℕ
  mi : ℕ
  s : ℕ
deriving DecidableEq

/-- Fixed-width zero-padded decimal rendering, most significant digit first
(`%Y` has width 4, the other fields width 2). -/
def padNum : ℕ → ℕ → List Char
  | 0, _ => []
  | k + 1, n => padNum k (n / 10) ++ [Char.ofNat (48 + n % 10)]

/-- chrono `Utc::now().format("%Y%m%d_%H%M%S")` as a character list
(grouped to the right so the common-prefix structure is explicit). -/
def timestampChars (t : DateTime) : List Char :=
  padNum 4 t.y ++ (padNum 2 t.mo ++ (padNum 2 t.d ++ (['_'] ++
    (padNum 2 t.h ++ (padNum 2 t.mi ++ padNum 2 t.s)))))

/-- backup.rs `create_backup`'s filename:
`format!("kanban_backup_{}.db", timestamp)`. -/
def backupFilename (t : DateTime) : String :=
  String.mk ("kanban_backup_".toList ++ (timestampChars t ++ ".db".toList))

/-- The field bounds every timestamp the formatter renders satisfies:
a four-digit year and two-digit month/day/hour/minute/second. -/
def validDT (t : DateTime) : Prop :=
  t.y < 10000 ∧ t.mo < 100 ∧ t.d < 100 ∧ t.h < 100 ∧ t.mi < 100 ∧ t.s < 100

/-- Chronological order at the formatter's second resolution. -/
def dtLt (a b : DateTime) : Prop :=
  a.y < b.y ∨ (a.y = b.y ∧ (a.mo < b.mo ∨ (a.mo = b.mo ∧ (a.d < b.d ∨
    (a.d = b.d ∧ (a.h < b.h ∨ (a.h = b.h ∧ (a.mi < b.mi ∨
      (a.mi = b.mi ∧ a.s < b.s)))))))))

instance (t : DateTime) : Decidable (validDT t) := by
  unfold validDT
  infer_instance

instance (a b : DateTime) : Decidable (dtLt a b) := by
  unfold dtLt
  infer_instance

/-- `fs::copy` into the backups directory: overwrite the entry with that
filename if it exists, else create it. -/
def putFile (name : String) (size : ℕ) : List BackupFile → List BackupFile
  | [] => [⟨name, size⟩]
  | b :: bs =>
      if b.filename == name then ⟨name, size⟩ :: bs
      else b :: putFile name size bs

/-- backup.rs `create_backup`: build the timestamped filename; if the store
file exists, copy it to that name (the size of a copy equals the source's
size; `-wal`/`-shm` side files are copied best-effort and are not listing
entries); return the backup path either way. -/
def create_backup (fs : BackupFS) (t : DateTime) : String × BackupFS :=
  let name := backupFilename t
  if fs.dbExists then
    (name, { fs with backups := putFile name fs.dbSize fs.backups })
  else (name, fs)

/-- The size recorded for a named file of the backups directory. -/
def lookupSize (fs : BackupFS) (name : String) : Option ℕ :=
  (fs.backups.find? (fun b => b.filename == name)).map BackupFile.size

/-- `padNum k` always renders exactly `k` characters. -/
theorem padNum_length : ∀ (k n : ℕ), (padNum k n).length = k := by
  intro k
  induction k with
  | zero => intro n; rfl
  | succ m ih => intro n; simp [padNum, ih]

/-- Decimal digit characters compare like the digits they render. -/
theorem digitChar_lt (d1 d2 : ℕ) (h : d1 < d2) (h2 : d2 < 10) :
    Char.ofNat (48 + d1) < Char.ofNat (48 + d2) := by
  interval_cases d2 <;> interval_cases d1 <;> decide

/-- A common prefix preserves strict lexicographic order. -/
theorem lex_append_left (c : List Char) {s t : List Char}
    (h : List.Lex (· < ·) s t) :
    List.Lex (· < ·) (c ++ s) (c ++ t) := by
  induction c with
  | nil => simpa using h
  | cons x xs ih => exact List.Lex.cons ih

/-- Strict lexicographic order between equal-length lists is preserved by
appending arbitrary suffixes. -/
theorem lex_append_of_lex (s t : List Char) :
    ∀ {a b : List Char}, List.Lex (· < ·) a b → a.length = b.length →
      List.Lex (· < ·) (a ++ s) (b ++ t) := by
  intro a b h
  induction h with
  | nil =>
    intro hlen
    simp at hlen
  | rel hr =>
    intro _
    exact List.Lex.rel hr
  | cons _ ih =>
    intro hlen
    simp only [List.length_cons] at hlen
    exact List.Lex.cons (ih (by omega))

/-- Zero-padded fixed-width decimal rendering is strictly monotone in the
rendered number, in the lexicographic character order. -/
theorem padNum_lt : ∀ (k n1 n2 : ℕ), n1 < n2 → n2 < 10 ^ k →
    List.Lex (· < ·) (padNum k n1) (padNum k n2) := by
  intro k
  induction k with
  | zero =>
    intro n1 n2 h h2
    exfalso
    simp at h2
    omega
  | succ m ih =>
    intro n1 n2 h h2
    have hq2 : n2 / 10 < 10 ^ m := by
      rw [Nat.div_lt_iff_lt_mul (by norm_num : (0:ℕ) < 10)]
      calc n2 < 10 ^ (m + 1) := h2
        _ = 10 ^ m * 10 := pow_succ 10 m
    simp only [padNum]
    rcases Nat.lt_or_ge (n1 / 10) (n2 / 10) with hq | hq
    · exact lex_append_of_lex _ _ (ih _ _ hq hq2)
        (by rw [padNum_length, padNum_length])
    · have heq : n1 / 10 = n2 / 10 := by
        have : n1 / 10 ≤ n2 / 10 := Nat.div_le_div_right (le_of_lt h)
        omega
      rw [heq]
      apply lex_append_left
      have hmod : n1 % 10 < n2 % 10 := by omega
      exact List.Lex.rel (digitChar_lt _ _ hmod (Nat.mod_lt _ (by norm_num)))

/-- The rendered timestamp always has 15 characters. -/
theorem timestampChars_length (t : DateTime) :
    (timestampChars t).length = 15 := by
  simp [timestampChars, padNum_length]

/-- The timestamp rendering is strictly monotone: a chronologically later
valid timestamp renders to a lexicographically greater character list. -/
theorem timestampChars_lt {a b : DateTime} (_hva : validDT a)
    (hvb : validDT b) (hlt : dtLt a b) :
    List.Lex (· < ·) (timestampChars a) (timestampChars b) := by
  obtain ⟨hy, hmo, hd, hh, hmi, hs⟩ := hvb
  have h4 : (10:ℕ) ^ 4 = 10000 := by norm_num
  have h2 : (10:ℕ) ^ 2 = 100 := by norm_num
  have hlen2 : ∀ n1 n2 : ℕ, (padNum 2 n1).length = (padNum 2 n2).length := by
    intro n1 n2
    rw [padNum_length, padNum_length]
  unfold timestampChars
  rcases hlt with h | ⟨ey, hlt⟩
  · exact lex_append_of_lex _ _ (padNum_lt 4 _ _ h (by rw [h4]; exact hy))
      (by rw [padNum_length, padNum_length])
  rw [ey]
  apply lex_append_left
  rcases hlt with h | ⟨emo, hlt⟩
  · exact lex_append_of_lex _ _
      (padNum_lt 2 _ _ h (by rw [h2]; exact hmo)) (hlen2 _ _)
  rw [emo]
  apply lex_append_left
  rcases hlt with h | ⟨ed, hlt⟩
  · exact lex_append_of_lex _ _
      (padNum_lt 2 _ _ h (by rw [h2]; exact hd)) (hlen2 _ _)
  rw [ed]
  apply lex_append_left
  apply lex_append_left
  rcases hlt with h | ⟨eh, hlt⟩
  · exact lex_append_of_lex _ _
      (padNum_lt 2 _ _ h (by rw [h2]; exact hh)) (hlen2 _ _)
  rw [eh]
  apply lex_append_left
  rcases hlt with h | ⟨emi, hlt⟩
  · exact lex_append_of_lex _ _
      (padNum_lt 2 _ _ h (by rw [h2]; exact hmi)) (hlen2 _ _)
  rw [emi]
  apply lex_append_left
  exact padNum_lt 2 _ _ hlt (by rw [h2]; exact hs)

/-- Backup filenames of chronologically ordered valid timestamps are in
strict (string) lexicographic order. -/
theorem backupFilename_lt {a b : DateTime} (hva : validDT a)
    (hvb : validDT b) (hlt : dtLt a b) :
    backupFilename a < backupFilename b := by
  have hlex : List.Lex (fun x1 x2 : Char => x1 < x2)
      (backupFilename a).toList (backupFilename b).toList := by
    show List.Lex (fun x1 x2 => x1 < x2)
      ("kanban_backup_".toList ++ (timestampChars a ++ ".db".toList))
      ("kanban_backup_".toList ++ (timestampChars b ++ ".db".toList))
    apply lex_append_left
    exact lex_append_of_lex _ _ (timestampChars_lt hva hvb hlt)
      (by rw [timestampChars_length, timestampChars_length])
  rw [String.lt_iff_toList_lt]
  exact hlex

/-- After `putFile`, the named file is present with the written size. -/
theorem lookupSize_putFile (name : String) (size : ℕ) :
    ∀ l : List BackupFile,
      ((putFile name size l).find? (fun b => b.filename == name)).map
          BackupFile.size = some size := by
  intro l
  induction l with
  | nil => simp [putFile]
  | cons b bs ih =>
    by_cases h : b.filename == name
    · simp [putFile, h]
    · simp only [putFile, h, if_false, Bool.false_eq_true, List.find?_cons]
      exact ih

/-- Claim C9 (amended): a `create_backup` call at a valid timestamp strictly
later (at the format's second resolution) than an earlier backup's timestamp
produces a filename sorting strictly after that backup's, and — the store
file existing and non-empty — the backup file it writes has the store's
size, greater than 0.  (Two calls within the same clock second render the
identical filename: the later copy overwrites the earlier backup instead of
sorting after it.) -/
theorem c9_backup_monotone (fs : BackupFS) (t1 t2 : DateTime)
    (hv1 : validDT t1) (hv2 : validDT t2) (hlt : dtLt t1 t2)
    (hdb : fs.dbExists = true) (hsz : 0 < fs.dbSize) :
    backupFilename t1 < backupFilename t2
    ∧ (create_backup fs t2).1 = backupFilename t2
    ∧ ∃ sz, lookupSize (create_backup fs t2).2 (backupFilename t2) = some sz
        ∧ 0 < sz := by
  refine ⟨backupFilename_lt hv1 hv2 hlt, ?_, ?_⟩
  · simp [create_backup, hdb]
  · refine ⟨fs.dbSize, ?_, hsz⟩
    have hb : (create_backup fs t2).2.backups =
        putFile (backupFilename t2) fs.dbSize fs.backups := by
      simp [create_backup, hdb]
    rw [lookupSize, hb]
    exact lookupSize_putFile _ _ _

/-- Witness for C9 (amended): two backups one second apart on a non-empty
5-byte store. -/
theorem c9_backup_monotone_witness :
    validDT ⟨2024, 5, 6, 7, 8, 9⟩
    ∧ validDT ⟨2024, 5, 6, 7, 8, 10⟩
    ∧ dtLt ⟨2024, 5, 6, 7, 8, 9⟩ ⟨2024, 5, 6, 7, 8, 10⟩
    ∧ (BackupFS.mk true 5 []).dbExists = true
    ∧ 0 < (BackupFS.mk true 5 []).dbSize
    ∧ backupFilename ⟨2024, 5, 6, 7, 8, 9⟩ <
        backupFilename ⟨2024, 5, 6, 7, 8, 10⟩ :=
  ⟨by decide, by decide, by decide, rfl, by decide,
    (c9_backup_monotone (BackupFS.mk true 5 []) ⟨2024, 5, 6, 7, 8, 9⟩
      ⟨2024, 5, 6, 7, 8, 10⟩ (by decide) (by decide) (by decide) rfl
      (by decide)).1⟩

/-- Counterexample for C9: two `create_backup` calls within the same clock
second.  The second call's filename equals — does not sort strictly after —
the first backup's filename, and the copy overwrites it: afterwards a single
backup file exists. -/
theorem c9_counterexample :
    (create_backup
        (create_backup (BackupFS.mk true 5 []) ⟨2024, 5, 6, 7, 8, 9⟩).2
        ⟨2024, 5, 6, 7, 8, 9⟩).1 =
      (create_backup (BackupFS.mk true 5 []) ⟨2024, 5, 6, 7, 8, 9⟩).1
    ∧ ¬ ((create_backup (BackupFS.mk true 5 []) ⟨2024, 5, 6, 7, 8, 9⟩).1 <
        (create_backup
          (create_backup (BackupFS.mk true 5 []) ⟨2024, 5, 6, 7, 8, 9⟩).2
          ⟨2024, 5, 6, 7, 8, 9⟩).1)
    ∧ (create_backup
        (create_backup (BackupFS.mk true 5 []) ⟨2024, 5, 6, 7, 8, 9⟩).2
        ⟨2024, 5, 6, 7, 8, 9⟩).2.backups.length = 1 :=
  ⟨rfl, fun h => absurd h (lt_irrefl _), by decide⟩

/-- The store's schema-level state as the migration runner sees it: whether
the `_migrations` ledger table exists, the ledger rows `(name, applied_at)`,
and the ordered log of migration scripts that have been executed (each
`execute_batch` call appends its script here; the tables only change through
these scripts, so an unchanged log means unchanged tables). -/
structure MigState where
  ledgerExists : Bool
  ledger : List (String × String)
  schemaLog : List String
deriving DecidableEq

/-- migrations.rs `MIGRATIONS`: the ordered `(name, script)` list; a single
migration defining the three tables and their indexes. -/
def MIGRATIONS : List (String × String) :=
  [("001_initial_schema",
    "CREATE TABLE IF NOT EXISTS boards (id TEXT PRIMARY KEY NOT NULL, name TEXT NOT NULL, last_opened_at TEXT, created_at TEXT NOT NULL, updated_at TEXT NOT NULL); CREATE TABLE IF NOT EXISTS columns (id TEXT PRIMARY KEY NOT NULL, board_id TEXT NOT NULL, name TEXT NOT NULL, \"order\" REAL NOT NULL, archived INTEGER DEFAULT 0, created_at TEXT NOT NULL, updated_at TEXT NOT NULL, FOREIGN KEY (board_id) REFERENCES boards(id) ON DELETE CASCADE); CREATE TABLE IF NOT EXISTS cards (id TEXT PRIMARY KEY NOT NULL, column_id TEXT NOT NULL, title TEXT NOT NULL, description TEXT, \"order\" REAL NOT NULL, archived INTEGER DEFAULT 0, created_at TEXT NOT NULL, updated_at TEXT NOT NULL, FOREIGN KEY (column_id) REFERENCES columns(id) ON DELETE CASCADE); CREATE INDEX IF NOT EXISTS idx_columns_board ON columns(board_id, \"order\"); CREATE INDEX IF NOT EXISTS idx_cards_column ON cards(column_id, \"order\"); CREATE INDEX IF NOT EXISTS idx_boards_last_opened ON boards(last_opened_at);")]

/-- One iteration of migrations.rs `run_migrations`' loop: if the name is in
the ledger (`SELECT EXISTS(... WHERE name = ?)`), do nothing; otherwise
apply the script (`execute_batch`) and record `(name, datetime('now'))`. -/
def applyMigration (now : String) (st : MigState) (m : String × String) :
    MigState :=
  if st.ledger.any (fun e => e.1 == m.1) then st
  else
    { st with
      schemaLog := st.schemaLog ++ [m.2]
      ledger := st.ledger ++ [(m.1, now)] }

/-- migrations.rs `run_migrations`: `CREATE TABLE IF NOT EXISTS _migrations`
(make the ledger exist), then process each entry of `MIGRATIONS` in order. -/
def run_migrations (now : String) (st : MigState) : MigState :=
  MIGRATIONS.foldl (applyMigration now) { st with ledgerExists := true }

/-- Claim C8: running the migration routine a second time — from any state,
already-migrated or not — changes nothing: no script is re-applied
(`schemaLog`, hence every table, is unchanged) and the ledger is unchanged. -/
theorem c8_migrations_idempotent (st : MigState) (t1 t2 : String) :
    run_migrations t2 (run_migrations t1 st) = run_migrations t1 st := by
  by_cases h : st.ledger.any (fun e => e.1 == "001_initial_schema")
  · simp [run_migrations, MIGRATIONS, applyMigration, h]
  · simp [run_migrations, MIGRATIONS, applyMigration, h, List.any_append]

/-- A concrete card used to exercise `move_card`. -/
def cardK1 : CardRow := ⟨"k1", "col1", "T", none, 1, false, "t0", "t0"⟩

/-- A concrete store with one board, two columns and one card (in `col1`). -/
def dbMove : DB :=
  ⟨[⟨"b1", "B", some "t0", "t0", "t0"⟩],
   [⟨"col1", "b1", "C1", 1, false, "t0", "t0"⟩,
    ⟨"col2", "b1", "C2", 2, false, "t0", "t0"⟩],
   [cardK1]⟩

/-- Counterexample for C3: `move_card` with the card's own column as target
(an ordinary in-column drag to a new position).  The claim demands that the
card disappear from its previous column's active listing, but the previous
column and the target column are the same, and the card is still listed
there after the move. -/
theorem c3_counterexample :
    (get_card dbMove "k1").map CardRow.columnId = some "col1"
    ∧ (move_card dbMove "k1" "col1" 2 "t1").1.map CardRow.columnId =
        some "col1"
    ∧ (move_card dbMove "k1" "col1" 2 "t1").1.map CardRow.order = some 2
    ∧ (get_cards_for_column (move_card dbMove "k1" "col1" 2 "t1").2
        "col1").map CardRow.id = ["k1"] := by
  refine ⟨rfl, rfl, by decide, by decide⟩

/-- Claim C3 (amended): for an existing, unarchived card and a target column
different from the card's current column, `move_card` sets the card's
`columnId` and `order` to the requested values, removes it from the old
column's active listing, and makes it appear in the target column's active
listing.  (When the target equals the current column the card stays in that
listing, and an archived card never appears in the target's active listing:
`move_card` does not change `archived`.) -/
theorem c3_move_card (db : DB) (id X : String) (O : ℚ) (now : String)
    (c0 : CardRow)
    (h0 : get_card db id = some c0)
    (harch : c0.archived = false)
    (hne : c0.columnId ≠ X) :
    (move_card db id X O now).1.map CardRow.columnId = some X
    ∧ (move_card db id X O now).1.map CardRow.order = some O
    ∧ (∀ c ∈ get_cards_for_column (move_card db id X O now).2 c0.columnId,
        c.id ≠ id)
    ∧ (∃ c ∈ get_cards_for_column (move_card db id X O now).2 X,
        c.id = id) := by
  rw [get_card] at h0
  have hg : ∀ c : CardRow,
      ((if c.id == id then
          { c with columnId := X, order := O, updatedAt := now }
        else c) : CardRow).id = c.id := by
    intro c
    by_cases h : c.id == id <;> simp [h]
  have hid0 : c0.id = id := by
    have := List.find?_some h0
    simpa using this
  have hmem0 : c0 ∈ db.cards := List.mem_of_find?_eq_some h0
  have e1 : (move_card db id X O now).1 =
      (db.cards.map (fun c =>
        if c.id == id then
          { c with columnId := X, order := O, updatedAt := now }
        else c)).find? (fun c => c.id == id) := rfl
  have e2 : (move_card db id X O now).2.cards =
      db.cards.map (fun c =>
        if c.id == id then
          { c with columnId := X, order := O, updatedAt := now }
        else c) := rfl
  have hres : (move_card db id X O now).1 =
      some { c0 with columnId := X, order := O, updatedAt := now } := by
    rw [e1, find_card_by_id_map _ _ _ hg, h0]
    simp [hid0]
  refine ⟨?_, ?_, ?_, ?_⟩
  · rw [hres]
    rfl
  · rw [hres]
    rfl
  · intro c hcmem
    rw [get_cards_for_column, List.mem_insertionSort, List.mem_filter] at hcmem
    obtain ⟨hcin, hcond⟩ := hcmem
    rw [e2] at hcin
    obtain ⟨c', hc'in, rfl⟩ := List.mem_map.mp hcin
    intro hcid
    have hc'id : c'.id = id := by
      rw [← hg c']
      exact hcid
    rw [if_pos (by simp [hc'id])] at hcond
    simp only [Bool.and_eq_true, beq_iff_eq, Bool.not_eq_true'] at hcond
    exact hne hcond.1.symm
  · refine ⟨{ c0 with columnId := X, order := O, updatedAt := now }, ?_, hid0⟩
    rw [get_cards_for_column, List.mem_insertionSort, List.mem_filter]
    constructor
    · rw [e2]
      refine List.mem_map.mpr ⟨c0, hmem0, ?_⟩
      rw [if_pos (by simp [hid0])]
    · simp [harch]

/-- Witness for C3 (amended): moving card `k1` from `col1` to `col2`. -/
theorem c3_move_card_witness :
    get_card dbMove "k1" = some cardK1
    ∧ cardK1.archived = false
    ∧ cardK1.columnId ≠ "col2"
    ∧ ((move_card dbMove "k1" "col2" 1 "t1").1.map CardRow.columnId =
          some "col2"
      ∧ (move_card dbMove "k1" "col2" 1 "t1").1.map CardRow.order = some 1
      ∧ (∀ c ∈ get_cards_for_column (move_card dbMove "k1" "col2" 1 "t1").2
            cardK1.columnId, c.id ≠ "k1")
      ∧ (∃ c ∈ get_cards_for_column (move_card dbMove "k1" "col2" 1 "t1").2
            "col2", c.id = "k1")) :=
  ⟨by decide, by decide, by decide,
    c3_move_card dbMove "k1" "col2" 1 "t1" cardK1
      (by decide) (by decide) (by decide)⟩

end Kanban
